import Mathlib

/-!
Verification of the `client-vector-search` embedding index (`src/index.ts`)
against its natural-language specification.

Modelling conventions (shallow embedding):
* JavaScript numbers are modelled by `ℚ`, with the single special value `NaN`
  given its own constructor of `JSValue` (the code tests for it with `isNaN`).
* A JavaScript object (record, filter, patch) is an association list
  `List (String × JSValue)`; `Object.keys` is `List.map Prod.fst`, property
  read `o[k]` yields `JSValue.undefined` when the key is absent.
* Strict equality `===` is structural on primitives; on arrays it is
  reference equality, which a pure embedding cannot exhibit: two array
  expressions denote distinct references, so `===` on arrays is `false`.
* The cosine-similarity scorer lives in `src/utils.ts`, which is not part of
  the sources under verification; search is therefore parametric in a total
  scoring function `sim`, and every property proved below holds for each
  choice of `sim` (the top-K claims do not depend on the scorer's values).
* The third-party `FastPriorityQueue` (min-first by the comparator
  `(a, b) => a.similarity < b.similarity`) is modelled as a list kept sorted
  ascending by similarity: `add` is ordered insertion, `peek`/`poll` act on
  the head.  Tie order among equal scores is unspecified by both.
* The IndexedDB driver is an external collaborator; it is modelled by a
  function `fetchAll : String → String → Except StorageErr (List Obj)`
  standing for "open the database, find the object store, getAll".
* Exceptions are modelled by returning the pair
  `(state after the call, Option error)`: the state component is the state
  of the mutable `EmbeddingIndex` object when the call returns or throws.
-/

namespace ClientVectorSearch

/-- JavaScript values as far as the index manipulates them: numbers (with
`NaN` separate, since the code tests `isNaN`), strings, booleans, `null`,
`undefined`, and arrays.  Nested plain objects never appear in any claim. -/
inductive JSValue where
  | num (q : ℚ)
  | nan
  | str (s : String)
  | bool (b : Bool)
  | null
  | undefined
  | arr (elems : List JSValue)

/-- A JavaScript object: ordered own properties (JS objects have unique
keys; lookups below read the first occurrence). -/
abbrev Obj := List (String × JSValue)

/-- Property read `o[k]`: the value at the first occurrence of `k`,
`undefined` when absent. -/
def jsGet (o : Obj) (k : String) : JSValue :=
  match o.find? (fun p => p.1 == k) with
  | some p => p.2
  | none => JSValue.undefined

/-- Models `k in o` and `o.hasOwnProperty(k)`. -/
def hasKey (o : Obj) (k : String) : Bool :=
  (o.find? (fun p => p.1 == k)).isSome

/-- Models `Object.keys(o)`. -/
def keysOf (o : Obj) : List String := o.map Prod.fst

/-- Strict equality `===`.  `NaN === x` is always `false`; arrays compare
by reference, and two array values in this pure embedding are distinct
references, hence `false`. -/
def jsStrictEq : JSValue → JSValue → Bool
  | JSValue.num a, JSValue.num b => a == b
  | JSValue.str a, JSValue.str b => a == b
  | JSValue.bool a, JSValue.bool b => a == b
  | JSValue.null, JSValue.null => true
  | JSValue.undefined, JSValue.undefined => true
  | _, _ => false

/-- Does `Number(s)` produce a number (not `NaN`)?  Simplified `ToNumber`
on strings: the empty/whitespace string converts to `0`; otherwise an
optional sign followed by a decimal numeral (digits with at most one dot)
converts; exponent, hexadecimal and `Infinity` forms are left out — no
claim exercises them. -/
def strCoercesToNumber (s : String) : Bool :=
  let t := s.trim
  if t == "" then true
  else
    let u := if t.startsWith "-" || t.startsWith "+" then t.drop 1 else t
    match u.splitOn "." with
    | [ip] => ip ≠ "" && ip.toList.all Char.isDigit
    | [ip, fp] =>
        (ip ≠ "" || fp ≠ "") && ip.toList.all Char.isDigit &&
          fp.toList.all Char.isDigit
    | _ => false

mutual
/-- Models `isNaN(xs)` for an array argument: `ToNumber` goes through
`Array.prototype.toString`, i.e. the comma-join of the elements; a
multi-element join never parses as a number. -/
def jsIsNaNList : List JSValue → Bool
  | [] => false
  | [x] => elemStrIsNaN x
  | _ :: _ :: _ => true

/-- Whether `ToNumber(String(x))` is `NaN` for an array element `x`
(`null`/`undefined` join as the empty string, booleans as `"true"`/
`"false"`). -/
def elemStrIsNaN : JSValue → Bool
  | JSValue.num _ => false
  | JSValue.nan => true
  | JSValue.str s => !strCoercesToNumber s
  | JSValue.bool _ => true
  | JSValue.null => false
  | JSValue.undefined => false
  | JSValue.arr xs => jsIsNaNList xs
end

/-- The global `isNaN` (with its implicit `ToNumber` coercion). -/
def jsIsNaN : JSValue → Bool
  | JSValue.num _ => false
  | JSValue.nan => true
  | JSValue.str s => !strCoercesToNumber s
  | JSValue.bool _ => false
  | JSValue.null => false
  | JSValue.undefined => true
  | JSValue.arr xs => jsIsNaNList xs

/-- The filter-match rule used everywhere:
`Object.keys(filter).every((key) => object[key] === filter[key])`. -/
def matchesFilter (o : Obj) (filter : Obj) : Bool :=
  (keysOf filter).all (fun k => jsStrictEq (jsGet o k) (jsGet filter k))

/-- Overwrite the value at every occurrence of key `k` (JS objects have
unique keys, so this is the single slot holding `k`). -/
def replaceKey : Obj → String → JSValue → Obj
  | [], _, _ => []
  | p :: rest, k, v =>
      if p.1 == k then (p.1, v) :: replaceKey rest k v
      else p :: replaceKey rest k v

/-- Single property write `o[k] = v`: overwrite in place when the key is
present, append otherwise. -/
def setKey (o : Obj) (k : String) (v : JSValue) : Obj :=
  if hasKey o k then replaceKey o k v else o ++ [(k, v)]

/-- Models `Object.assign(target, source)`: each own key of `source` (once per
key), written into `target` in order. -/
def objectAssign (target source : Obj) : Obj :=
  (keysOf source).dedup.foldl (fun acc k => setKey acc k (jsGet source k)) target

/-- JavaScript array indexing `l[i]` with a possibly negative index
(`undefined`, i.e. `none`, out of range). -/
def jsIndexList (l : List Obj) (i : ℤ) : Option Obj :=
  if i < 0 then none else l[i.toNat]?

/-- Models `Array.prototype.findIndex`: index of the first match, `-1` if none. -/
def findIndexAux (p : Obj → Bool) : List Obj → ℤ
  | [] => -1
  | o :: rest =>
      if p o then 0
      else
        let r := findIndexAux p rest
        if r = -1 then -1 else r + 1

/-- The errors the class throws, by message:
`invalidEmbedding` = "Object must have an embedding property of type number[]",
`schemaMismatch` = "Object must have the same properties as the initial objects"
(both are the spec's `ValidationError`), and
`vectorNotFound` = "Vector not found" (the spec's `NotFoundError`). -/
inductive ErrKind where
  | invalidEmbedding
  | schemaMismatch
  | vectorNotFound
deriving DecidableEq

/-- The mutable fields of class `EmbeddingIndex`. -/
structure EmbeddingIndex where
  objects : List Obj
  keys : List String
  indexedDBDataCache : Option (List Obj)
  preloadedDBName : Option String
  preloadedObjectStoreName : Option String

/-- The state of a freshly constructed empty index. -/
def emptyIndex : EmbeddingIndex :=
  ⟨[], [], none, none, none⟩

/-- Models `private findVectorIndex(filter)`. -/
def findVectorIndex (st : EmbeddingIndex) (filter : Obj) : ℤ :=
  findIndexAux (fun o => matchesFilter o filter) st.objects

/-- The guard `!Array.isArray(obj.embedding) || obj.embedding.some(isNaN)`. -/
def embeddingInvalid (obj : Obj) : Bool :=
  match jsGet obj "embedding" with
  | JSValue.arr xs => xs.any jsIsNaN
  | _ => true

/-- Models `private validateAndAdd(obj)`:
reject unless `obj.embedding` is an array with no `isNaN` element; when no
schema is established yet (`this.keys.length === 0`) take `Object.keys(obj)`
as the schema, otherwise reject unless every schema key is `in obj`; then
push `obj`. -/
def validateAndAdd (st : EmbeddingIndex) (obj : Obj) :
    EmbeddingIndex × Option ErrKind :=
  if embeddingInvalid obj then (st, some ErrKind.invalidEmbedding)
  else if st.keys = [] then
    ({ st with keys := keysOf obj, objects := st.objects ++ [obj] }, none)
  else if st.keys.all (fun k => hasKey obj k) then
    ({ st with objects := st.objects ++ [obj] }, none)
  else (st, some ErrKind.schemaMismatch)

/-- Models `add(obj)`. -/
def add (st : EmbeddingIndex) (obj : Obj) : EmbeddingIndex × Option ErrKind :=
  validateAndAdd st obj

/-- Models `update(filter, vector)`: locate the first match (`Vector not found`
when none); when the patch has an `embedding` property run `validateAndAdd`
on the patch (note: on success this also pushes the patch); finally
`Object.assign` the patch into the record at the located index. -/
def update (st : EmbeddingIndex) (filter vector : Obj) :
    EmbeddingIndex × Option ErrKind :=
  let index := findVectorIndex st filter
  if index = -1 then (st, some ErrKind.vectorNotFound)
  else
    let step :=
      if hasKey vector "embedding" then validateAndAdd st vector else (st, none)
    match step with
    | (st1, some e) => (st1, some e)
    | (st1, none) =>
        ({ st1 with
            objects := st1.objects.set index.toNat
              (objectAssign (st1.objects.getD index.toNat []) vector) }, none)

/-- Models `remove(filter)`. -/
def remove (st : EmbeddingIndex) (filter : Obj) :
    EmbeddingIndex × Option ErrKind :=
  let index := findVectorIndex st filter
  if index = -1 then (st, some ErrKind.vectorNotFound)
  else ({ st with objects := st.objects.eraseIdx index.toNat }, none)

/-- Models `removeBatch(filters)`: per filter, erase the first match when present;
never throws. -/
def removeBatch (st : EmbeddingIndex) (filters : List Obj) : EmbeddingIndex :=
  filters.foldl
    (fun st filter =>
      let index := findVectorIndex st filter
      if index ≠ -1 then
        { st with objects := st.objects.eraseIdx index.toNat }
      else st)
    st

/-- Models `get(filter)`: `this.objects[this.findVectorIndex(filter)] || null`
(`none` stands for both `undefined` and `null`). -/
def get (st : EmbeddingIndex) (filter : Obj) : Option Obj :=
  jsIndexList st.objects (findVectorIndex st filter)

/-- Models `size()`. -/
def size (st : EmbeddingIndex) : ℕ := st.objects.length

/-- Models `clear()`: drops the records, keeps the schema. -/
def clear (st : EmbeddingIndex) : EmbeddingIndex :=
  { st with objects := [] }

/-- Models `initialObjects.forEach((obj) => this.validateAndAdd(obj))`: a thrown
error aborts the remaining iterations (and the surrounding call). -/
def runAdds (objs : List Obj) (st : EmbeddingIndex) :
    EmbeddingIndex × Option ErrKind :=
  match objs with
  | [] => (st, none)
  | o :: rest =>
      match validateAndAdd st o with
      | (st1, none) => runAdds rest st1
      | (st1, some e) => (st1, some e)

/-- One init block of the constructor: reset `objects`/`keys`, add every
initial object, then (for a nonempty list, whose first element is an object
and hence truthy) overwrite `keys` with `Object.keys(initialObjects[0])`. -/
def constructorInitBlock (initialObjects : List Obj) (st : EmbeddingIndex) :
    EmbeddingIndex × Option ErrKind :=
  let st0 := { st with objects := [], keys := [] }
  if initialObjects.length > 0 then
    match runAdds initialObjects st0 with
    | (st1, some e) => (st1, some e)
    | (st1, none) =>
        ({ st1 with keys := keysOf (initialObjects.headD []) }, none)
  else (st0, none)

/-- Models `constructor(initialObjects?)`: the init block appears twice verbatim
in the source; afterwards the three cache fields are (re)set to `null`. -/
def constructorEI (initialObjects : List Obj) :
    EmbeddingIndex × Option ErrKind :=
  match constructorInitBlock initialObjects emptyIndex with
  | (st1, some e) => (st1, some e)
  | (st1, none) =>
      match constructorInitBlock initialObjects st1 with
      | (st2, some e) => (st2, some e)
      | (st2, none) =>
          ({ st2 with
              indexedDBDataCache := none
              preloadedDBName := none
              preloadedObjectStoreName := none }, none)

/-! ### The IndexedDB cache/preload layer and search -/

/-- Failures of the durable-storage collaborator, matching the three
rejections inside `preloadIndexedDB`. -/
inductive StorageErr where
  | openFailure
  | storeNotFound
  | fetchFailure
deriving DecidableEq

/-- Models `clearIndexedDBCache()`: clears snapshot and identity tag together
(and only logs when a snapshot was present). -/
def clearIndexedDBCache (st : EmbeddingIndex) : EmbeddingIndex :=
  if st.indexedDBDataCache.isSome then
    { st with
        indexedDBDataCache := none
        preloadedDBName := none
        preloadedObjectStoreName := none }
  else st

/-- Models `preloadIndexedDB(DBname, objectStoreName)`: clear the cache, fetch
everything from the collaborator, and on success store the snapshot tagged
with the identity.  The `catch` block clears the cache and swallows the
error (the `throw error;` in the source is commented out), so the second
component — the promise's rejection channel — is always `none`. -/
def preloadIndexedDB (fetchAll : String → String → Except StorageErr (List Obj))
    (st : EmbeddingIndex) (DBname objectStoreName : String) :
    EmbeddingIndex × Option StorageErr :=
  let st0 := clearIndexedDBCache st
  match fetchAll DBname objectStoreName with
  | Except.ok fetchedObjects =>
      ({ st0 with
          indexedDBDataCache := some fetchedObjects
          preloadedDBName := some DBname
          preloadedObjectStoreName := some objectStoreName }, none)
  | Except.error _ => (clearIndexedDBCache st0, none)

/-- The cache-validity test at the top of `loadAndSearchFromIndexedDB`
(a snapshot — even an empty array, which is truthy — tagged with exactly
the requested identity). -/
def isCacheValid (st : EmbeddingIndex) (DBname objectStoreName : String) : Bool :=
  st.indexedDBDataCache.isSome &&
    st.preloadedDBName == some DBname &&
    st.preloadedObjectStoreName == some objectStoreName

/-- A scored search hit. -/
structure SearchResult where
  similarity : ℚ
  object : Obj

/-- Models `FastPriorityQueue.add` for the comparator
`(a, b) => a.similarity < b.similarity`: the queue is modelled as a list
sorted ascending by similarity, so the head is the minimum (`peek`). -/
def queueAdd (r : SearchResult) (queue : List SearchResult) :
    List SearchResult :=
  List.orderedInsert (fun a b => a.similarity ≤ b.similarity) r queue

/-- Processing one scored candidate: insert unconditionally while fewer
than `topK` are held; otherwise poll the minimum and insert only when the
candidate scores strictly higher than the minimum (`peek`). -/
def queueStep (topK : ℤ) (queue : List SearchResult) (similarity : ℚ)
    (obj : Obj) : List SearchResult :=
  if (queue.length : ℤ) < topK then queueAdd ⟨similarity, obj⟩ queue
  else
    match queue.head? with
    | some peeked =>
        if peeked.similarity < similarity then
          queueAdd ⟨similarity, obj⟩ queue.tail
        else queue
    | none => queue

/-- The local (`else`) branch of `search`: stream the records through the
filter, score each match with the scorer `sim`, accumulate in the bounded
min-queue, then drain (ascending) and reverse. -/
def searchLocal (sim : List ℚ → JSValue → ℚ) (objects : List Obj)
    (queryEmbedding : List ℚ) (topK : ℤ) (filter : Obj) : List SearchResult :=
  (objects.foldl
    (fun queue obj =>
      if matchesFilter obj filter then
        queueStep topK queue (sim queryEmbedding (jsGet obj "embedding")) obj
      else queue)
    []).reverse

/-- The candidate loop of `loadAndSearchFromIndexedDB`: same top-K logic,
but a record whose `embedding` is not an array is skipped with a warning. -/
def storageTopK (sim : List ℚ → JSValue → ℚ) (objectsToSearch : List Obj)
    (queryEmbedding : List ℚ) (topK : ℤ) (filter : Obj) : List SearchResult :=
  (objectsToSearch.foldl
    (fun queue record =>
      if matchesFilter record filter then
        match jsGet record "embedding" with
        | JSValue.arr xs =>
            queueStep topK queue (sim queryEmbedding (JSValue.arr xs)) record
        | _ => queue
      else queue)
    []).reverse

/-- Outcome of `loadAndSearchFromIndexedDB`; `fetchCalls` instruments how
many times the durable-storage collaborator was consulted by this call
(the spec's call-count instrumentation). -/
structure LoadSearchOut where
  state : EmbeddingIndex
  results : List SearchResult
  fetchCalls : ℕ

/-- Models `loadAndSearchFromIndexedDB`: use the snapshot when the cache is valid
for the identity; otherwise preload (which never rejects).  If the cache
is still empty after the preload, the inner throw is caught and the call
returns `[]`. -/
def loadAndSearchFromIndexedDB
    (sim : List ℚ → JSValue → ℚ)
    (fetchAll : String → String → Except StorageErr (List Obj))
    (st : EmbeddingIndex) (DBname objectStoreName : String)
    (queryEmbedding : List ℚ) (topK : ℤ) (filter : Obj) : LoadSearchOut :=
  if !isCacheValid st DBname objectStoreName then
    let st1 := (preloadIndexedDB fetchAll st DBname objectStoreName).1
    match st1.indexedDBDataCache with
    | none => ⟨st1, [], 1⟩
    | some objs =>
        ⟨st1, storageTopK sim objs queryEmbedding topK filter, 1⟩
  else
    ⟨st, storageTopK sim (st.indexedDBDataCache.getD [])
        queryEmbedding topK filter, 0⟩

/-- Models `useStorage: 'indexedDB' | 'localStorage' | 'none'`. -/
inductive UseStorage where
  | indexedDB
  | localStorage
  | none
deriving DecidableEq

/-- Models `SearchOptions`; absent members are `none`. -/
structure SearchOptions where
  topK : Option ℤ
  filter : Option Obj
  useStorage : Option UseStorage
  storageOptions : Option (String × String)

def DEFAULT_TOP_K : ℤ := 3

/-- Models the `||`-defaulting of the numeric option `topK`: both `undefined` and
the falsy `0` fall back to `DEFAULT_TOP_K`. -/
def resolveTopK (t : Option ℤ) : ℤ :=
  match t with
  | some k => if k = 0 then DEFAULT_TOP_K else k
  | none => DEFAULT_TOP_K

/-- Models the `||`-defaulting of a string option: `undefined` and the falsy empty
string fall back to the default. -/
def resolveName (s : Option String) (dflt : String) : String :=
  match s with
  | some n => if n = "" then dflt else n
  | none => dflt

/-- Models `search(queryEmbedding, options)`: resolve `topK` / `filter` /
`useStorage`; the IndexedDB branch throws when the environment has no
IndexedDB (`indexedDBAvailable = false`) and otherwise delegates to
`loadAndSearchFromIndexedDB`; every other source searches the in-memory
records.  The result carries the possibly-updated state and the
fetch-call count. -/
def search (sim : List ℚ → JSValue → ℚ)
    (fetchAll : String → String → Except StorageErr (List Obj))
    (indexedDBAvailable : Bool) (st : EmbeddingIndex)
    (queryEmbedding : List ℚ) (options : SearchOptions) :
    Except String (EmbeddingIndex × List SearchResult × ℕ) :=
  let topK := resolveTopK options.topK
  let filter := options.filter.getD []
  let useStorage := options.useStorage.getD UseStorage.none
  if useStorage = UseStorage.indexedDB then
    let DBname := resolveName (options.storageOptions.map Prod.fst) "clientVectorDB"
    let objectStoreName :=
      resolveName (options.storageOptions.map Prod.snd) "ClientEmbeddingStore"
    if !indexedDBAvailable then Except.error "IndexedDB is not supported"
    else
      let out := loadAndSearchFromIndexedDB sim fetchAll st DBname
        objectStoreName queryEmbedding topK filter
      Except.ok (out.state, out.results, out.fetchCalls)
  else
    Except.ok (st, searchLocal sim st.objects queryEmbedding topK filter, 0)

/-- The operations of the record store, for invariant claims. -/
inductive Op where
  | add (r : Obj)
  | update (filter patch : Obj)
  | remove (filter : Obj)
  | removeBatch (filters : List Obj)
  | clear

/-- Run one operation. -/
def execOp (st : EmbeddingIndex) : Op → EmbeddingIndex × Option ErrKind
  | Op.add r => add st r
  | Op.update f p => update st f p
  | Op.remove f => remove st f
  | Op.removeBatch fs => (removeBatch st fs, none)
  | Op.clear => (clear st, none)

/-- Run a sequence of operations, stopping at the first thrown error. -/
def runOps (st : EmbeddingIndex) : List Op → EmbeddingIndex × Option ErrKind
  | [] => (st, none)
  | op :: rest =>
      match execOp st op with
      | (st1, none) => runOps st1 rest
      | (st1, some e) => (st1, some e)

/-! ### Predicates used in the statements -/

/-- The queue is kept ascending by similarity (head = minimum). -/
def ascending (queue : List SearchResult) : Prop :=
  List.Sorted (fun a b : SearchResult => a.similarity ≤ b.similarity) queue

instance : IsTotal SearchResult (fun a b => a.similarity ≤ b.similarity) :=
  ⟨fun a b => le_total a.similarity b.similarity⟩

instance : IsTrans SearchResult (fun a b => a.similarity ≤ b.similarity) :=
  ⟨fun _ _ _ hab hbc => le_trans hab hbc⟩

/-- Cache well-formedness: snapshot and identity tag are cleared together
(every reachable state satisfies this — the only writers are
`preloadIndexedDB` success, which sets all three fields, and
`clearIndexedDBCache`, which clears all three). -/
def WFCache (st : EmbeddingIndex) : Prop :=
  st.indexedDBDataCache = none →
    st.preloadedDBName = none ∧ st.preloadedObjectStoreName = none

/-- The record-store invariant the code actually maintains: when no schema
is established the store is empty; every record carries at least the
schema's attribute names (it may have more); and every record's
`embedding` passed the `Array.isArray`/`isNaN` guard (an array, possibly
empty, with no element that coerces to `NaN`). -/
def Inv (st : EmbeddingIndex) : Prop :=
  (st.keys = [] → st.objects = []) ∧
  ∀ r ∈ st.objects,
    st.keys.all (fun k => hasKey r k) = true ∧ embeddingInvalid r = false

/-- The claimed (spec-worded) shape of a stored record: attribute-name set
equal to the schema, and an `embedding` that is a non-empty array of
numbers none of which is `NaN`.  Used to state the original claim C6,
which the code falsifies. -/
def specRecordInvariant (schema : List String) (r : Obj) : Prop :=
  (∀ k, k ∈ keysOf r ↔ k ∈ schema) ∧
  ∃ xs, jsGet r "embedding" = JSValue.arr xs ∧ xs ≠ [] ∧
    ∀ x ∈ xs, ∃ q, x = JSValue.num q

/-! ### Concrete sample data (used by witnesses and counterexamples) -/

/-- A simple total scorer, standing in for the external cosine scorer. -/
def simConst : List ℚ → JSValue → ℚ := fun _ v =>
  match v with
  | JSValue.arr l => (l.length : ℚ)
  | _ => 0

/-- A durable-storage collaborator that always fails. -/
def fetchFail : String → String → Except StorageErr (List Obj) :=
  fun _ _ => Except.error StorageErr.openFailure

def recA : Obj :=
  [("id", JSValue.num 1), ("embedding", JSValue.arr [JSValue.num 1])]

def recB : Obj :=
  [("id", JSValue.num 2),
   ("embedding", JSValue.arr [JSValue.num 1, JSValue.num 2])]

def recC : Obj :=
  [("id", JSValue.num 3),
   ("embedding", JSValue.arr [JSValue.num 1, JSValue.num 2, JSValue.num 3])]

def recD : Obj :=
  [("id", JSValue.num 4),
   ("embedding",
    JSValue.arr [JSValue.num 1, JSValue.num 2, JSValue.num 3, JSValue.num 4])]

/-- An index holding four valid records. -/
def stABCD : EmbeddingIndex :=
  ⟨[recA, recB, recC, recD], ["id", "embedding"], none, none, none⟩

/-- A durable-storage collaborator that succeeds exactly for `"db"/"os"`. -/
def fetchOk : String → String → Except StorageErr (List Obj) :=
  fun db os =>
    if db = "db" ∧ os = "os" then Except.ok [recA, recB]
    else Except.error StorageErr.openFailure

/-- An index whose cache holds a snapshot tagged `"db"/"os"`. -/
def stCached : EmbeddingIndex :=
  ⟨[], [], some [recA], some "db", some "os"⟩

/-- A patch carrying an `embedding`, aimed at `recA`. -/
def patchA : Obj :=
  [("id", JSValue.num 1), ("embedding", JSValue.arr [JSValue.num 2])]

/-! ### Basic lemmas about property access -/

theorem hasKey_iff_mem_keysOf (o : Obj) (k : String) :
    hasKey o k = true ↔ k ∈ keysOf o := by
  induction o with
  | nil => simp [hasKey, keysOf]
  | cons p rest ih =>
      by_cases hpk : p.1 = k
      · simp [hasKey, keysOf, List.find?, hpk]
      · have hb : (p.1 == k) = false := by simpa using hpk
        simp only [hasKey, keysOf, List.find?, hb, List.map_cons, List.mem_cons]
        rw [← keysOf, ← hasKey, ih]
        exact (or_iff_right fun hc => hpk hc.symm).symm

theorem all_keysOf_hasKey (o : Obj) :
    (keysOf o).all (fun k => hasKey o k) = true := by
  rw [List.all_eq_true]
  intro k hk
  exact (hasKey_iff_mem_keysOf o k).2 (by simpa using hk)

theorem jsGet_nil (k : String) : jsGet [] k = JSValue.undefined := rfl

theorem keysOf_ne_nil_of_embedding {o : Obj} (h : embeddingInvalid o = false) :
    keysOf o ≠ [] := by
  intro hnil
  have : o = [] := by
    cases o with
    | nil => rfl
    | cons p rest => simp [keysOf] at hnil
  subst this
  simp [embeddingInvalid, jsGet] at h

/-! ### `findIndex` and its relation to `find?` -/

theorem findIndexAux_nonneg_or (p : Obj → Bool) (l : List Obj) :
    findIndexAux p l = -1 ∨ 0 ≤ findIndexAux p l := by
  induction l with
  | nil => left; rfl
  | cons o rest ih =>
      by_cases h : p o
      · right; simp [findIndexAux, h]
      · rcases ih with h1 | h1 <;> simp only [findIndexAux, h, if_false]
        · left; simp [h1]
        · by_cases h2 : findIndexAux p rest = -1
          · left; simp [h2]
          · right; simp only [h2, if_false]; omega

theorem findIndexAux_eq_neg1_iff (p : Obj → Bool) (l : List Obj) :
    findIndexAux p l = -1 ↔ l.find? p = none := by
  induction l with
  | nil => simp [findIndexAux]
  | cons o rest ih =>
      by_cases h : p o
      · simp [findIndexAux, h, List.find?]
      · have hb : (p o) = false := by simpa using h
        simp only [findIndexAux, hb, Bool.false_eq_true, if_false, List.find?]
        rcases findIndexAux_nonneg_or p rest with h1 | h1
        · simp [h1, ih.1 h1]
        · by_cases h2 : findIndexAux p rest = -1
          · simp [h2, ih.1 h2]
          · simp only [h2, if_false]
            constructor
            · intro hc; omega
            · intro hc; exact absurd (ih.2 hc) h2

theorem jsIndexList_findIndexAux (p : Obj → Bool) (l : List Obj) :
    jsIndexList l (findIndexAux p l) = l.find? p := by
  induction l with
  | nil => rfl
  | cons o rest ih =>
      by_cases h : p o
      · simp [findIndexAux, h, jsIndexList, List.find?]
      · have hb : (p o) = false := by simpa using h
        simp only [findIndexAux, hb, Bool.false_eq_true, if_false, List.find?]
        by_cases h2 : findIndexAux p rest = -1
        · simp only [h2, if_pos rfl]
          rw [← ih, h2]
          rfl
        · have h3 : 0 ≤ findIndexAux p rest := by
            rcases findIndexAux_nonneg_or p rest with h1 | h1
            · exact absurd h1 h2
            · exact h1
          simp only [h2, if_false]
          rw [← ih]
          simp only [jsIndexList]
          rw [if_neg (by omega), if_neg (by omega)]
          have h4 : (findIndexAux p rest + 1).toNat =
              (findIndexAux p rest).toNat + 1 := by omega
          simp [h4]

theorem find?_getElem?_of_findIndexAux {p : Obj → Bool} {l : List Obj}
    (h : findIndexAux p l ≠ -1) :
    0 ≤ findIndexAux p l ∧ l[(findIndexAux p l).toNat]? = l.find? p := by
  have h0 : 0 ≤ findIndexAux p l := by
    rcases findIndexAux_nonneg_or p l with h1 | h1
    · exact absurd h1 h
    · exact h1
  refine ⟨h0, ?_⟩
  have := jsIndexList_findIndexAux p l
  rwa [jsIndexList, if_neg (by omega)] at this

/-! ### `Object.assign` lemmas -/

theorem jsGet_replaceKey_self (o : Obj) (k : String) (v : JSValue)
    (h : hasKey o k = true) : jsGet (replaceKey o k v) k = v := by
  induction o with
  | nil => simp [hasKey, List.find?] at h
  | cons p rest ih =>
      rcases hb : (p.1 == k) with _ | _
      · have h' : hasKey rest k = true := by
          simpa [hasKey, List.find?, hb] using h
        simpa [replaceKey, hb, jsGet, List.find?] using ih h'
      · simp [replaceKey, hb, jsGet, List.find?]

theorem jsGet_replaceKey_other (o : Obj) {k k'' : String} (v : JSValue)
    (hkk : k ≠ k'') : jsGet (replaceKey o k v) k'' = jsGet o k'' := by
  induction o with
  | nil => rfl
  | cons p rest ih =>
      rcases hb : (p.1 == k) with _ | _
      · rcases hbk : (p.1 == k'') with _ | _ <;>
          simpa [replaceKey, hb, jsGet, List.find?, hbk] using ih
      · have hp : p.1 = k := by simpa using hb
        have hbk : (p.1 == k'') = false := by simpa [hp] using hkk
        simpa [replaceKey, hb, jsGet, List.find?, hbk] using ih

theorem hasKey_replaceKey (o : Obj) (k k'' : String) (v : JSValue) :
    hasKey (replaceKey o k v) k'' = hasKey o k'' := by
  induction o with
  | nil => rfl
  | cons p rest ih =>
      rcases hb : (p.1 == k) with _ | _ <;>
        rcases hbk : (p.1 == k'') with _ | _ <;>
        simpa [replaceKey, hb, hasKey, List.find?, hbk] using ih

theorem jsGet_append_left {o : Obj} {k : String} {p : String × JSValue}
    (h : hasKey o k = false) : jsGet (o ++ [p]) k = jsGet [p] k := by
  have hf : o.find? (fun q => q.1 == k) = none := by
    simpa [hasKey, Option.isSome_iff_exists] using h
  simp [jsGet, List.find?_append, hf]

theorem jsGet_setKey_self (o : Obj) (k : String) (v : JSValue) :
    jsGet (setKey o k v) k = v := by
  rcases h : hasKey o k with _ | _
  · rw [setKey, h]
    simp only [Bool.false_eq_true, if_false]
    rw [jsGet_append_left h]
    simp [jsGet, List.find?]
  · rw [setKey, h, if_pos rfl]
    exact jsGet_replaceKey_self o k v h

theorem jsGet_setKey_other (o : Obj) {k k'' : String} (v : JSValue)
    (hkk : k ≠ k'') : jsGet (setKey o k v) k'' = jsGet o k'' := by
  rcases h : hasKey o k with _ | _
  · rw [setKey, h]
    simp only [Bool.false_eq_true, if_false]
    rcases hf : o.find? (fun q => q.1 == k'') with _ | q
    · rw [jsGet, List.find?_append, hf]
      simp [jsGet, hf, List.find?, show (k == k'') = false by simpa using hkk]
    · rw [jsGet, List.find?_append, hf]
      simp [jsGet, hf]
  · rw [setKey, h, if_pos rfl]
    exact jsGet_replaceKey_other o v hkk

theorem hasKey_setKey (o : Obj) (k k'' : String) (v : JSValue) :
    hasKey (setKey o k v) k'' = (hasKey o k'' || k'' == k) := by
  rcases h : hasKey o k with _ | _
  · rw [setKey, h]
    simp only [Bool.false_eq_true, if_false]
    rcases hkk : (k'' == k) with _ | _
    · have hne0 : k'' ≠ k := by simpa using hkk
      have hne : (k == k'') = false := by simpa using hne0.symm
      rcases hf : o.find? (fun q => q.1 == k'') with _ | q <;>
        simp [hasKey, List.find?_append, hf, List.find?, hne]
    · have hk : k'' = k := by simpa using hkk
      rcases hf : o.find? (fun q => q.1 == k'') with _ | q <;>
        simp [hasKey, List.find?_append, hf, List.find?, hk]
  · rw [setKey, h, if_pos rfl, hasKey_replaceKey]
    rcases hkk : (k'' == k) with _ | _
    · simp
    · have hk : k'' = k := by simpa using hkk
      simp [hk, h]

theorem hasKey_foldl_setKey (f : String → JSValue) (l : List String)
    (acc : Obj) (k : String) :
    hasKey (l.foldl (fun a k' => setKey a k' (f k')) acc) k =
      (hasKey acc k || l.contains k) := by
  induction l generalizing acc with
  | nil => simp
  | cons k0 rest ih =>
      simp only [List.foldl_cons, ih, hasKey_setKey, List.contains_cons]
      cases hasKey acc k <;> by_cases hk0 : k = k0 <;>
        simp [hk0, Bool.or_comm, Bool.or_assoc, Bool.or_left_comm]

theorem jsGet_foldl_setKey_not_mem (f : String → JSValue) {l : List String}
    (acc : Obj) {k : String} (hk : k ∉ l) :
    jsGet (l.foldl (fun a k' => setKey a k' (f k')) acc) k = jsGet acc k := by
  induction l generalizing acc with
  | nil => rfl
  | cons k0 rest ih =>
      simp only [List.mem_cons, not_or] at hk
      simp only [List.foldl_cons]
      rw [ih (setKey acc k0 (f k0)) hk.2,
        jsGet_setKey_other acc (f k0) fun h => hk.1 h.symm]

theorem jsGet_foldl_setKey_mem (f : String → JSValue) {l : List String}
    (acc : Obj) {k : String} (hnd : l.Nodup) (hk : k ∈ l) :
    jsGet (l.foldl (fun a k' => setKey a k' (f k')) acc) k = f k := by
  induction l generalizing acc with
  | nil => cases hk
  | cons k0 rest ih =>
      rcases List.mem_cons.1 hk with hk0 | hkr
      · subst hk0
        have hkr : k ∉ rest := (List.nodup_cons.1 hnd).1
        simp only [List.foldl_cons]
        rw [jsGet_foldl_setKey_not_mem f (setKey acc k (f k)) hkr,
          jsGet_setKey_self]
      · simp only [List.foldl_cons]
        exact ih (setKey acc k0 (f k0)) (List.nodup_cons.1 hnd).2 hkr

theorem jsGet_objectAssign (t p : Obj) (k : String) :
    jsGet (objectAssign t p) k =
      (if hasKey p k = true then jsGet p k else jsGet t k) := by
  rcases h : hasKey p k with _ | _
  · have hk : k ∉ (keysOf p).dedup := by
      rw [List.mem_dedup]
      intro hmem
      rw [(hasKey_iff_mem_keysOf p k).2 hmem] at h
      cases h
    simp only [Bool.false_eq_true, if_false, objectAssign]
    exact jsGet_foldl_setKey_not_mem (jsGet p) t hk
  · have hk : k ∈ (keysOf p).dedup :=
      List.mem_dedup.2 ((hasKey_iff_mem_keysOf p k).1 h)
    simp only [if_pos rfl, objectAssign]
    exact jsGet_foldl_setKey_mem (jsGet p) t (List.nodup_dedup _) hk

theorem hasKey_objectAssign (t p : Obj) (k : String) :
    hasKey (objectAssign t p) k = (hasKey t k || hasKey p k) := by
  rw [objectAssign, hasKey_foldl_setKey]
  rcases h : hasKey p k with _ | _
  · have hnm : k ∉ (keysOf p).dedup := by
      rw [List.mem_dedup]
      intro hmem
      rw [(hasKey_iff_mem_keysOf p k).2 hmem] at h
      cases h
    have hk : ((keysOf p).dedup.contains k) = false := by simpa using hnm
    rw [hk]
  · have hk : ((keysOf p).dedup.contains k) = true := by
      simpa [List.mem_dedup] using (hasKey_iff_mem_keysOf p k).1 h
    rw [hk]

/-! ### Top-K queue lemmas -/

theorem queueAdd_sorted (r : SearchResult) {q : List SearchResult}
    (h : ascending q) : ascending (queueAdd r q) :=
  List.Sorted.orderedInsert r q h

theorem queueAdd_length (r : SearchResult) (q : List SearchResult) :
    (queueAdd r q).length = q.length + 1 := by
  rw [queueAdd]
  exact List.orderedInsert_length _ q r

theorem queueAdd_mem {x r : SearchResult} {q : List SearchResult}
    (h : x ∈ queueAdd r q) : x = r ∨ x ∈ q := by
  rw [queueAdd] at h
  exact (List.mem_orderedInsert _).1 h

theorem queueStep_inv {K : ℤ} (hK : 0 < K) {q : List SearchResult}
    (hs : ascending q) (hl : q.length ≤ K.toNat) (s : ℚ) (obj : Obj) :
    ascending (queueStep K q s obj) ∧
      (queueStep K q s obj).length = min (q.length + 1) K.toNat ∧
      ∀ x ∈ queueStep K q s obj, x ∈ q ∨ x = ⟨s, obj⟩ := by
  have hKt : (K.toNat : ℤ) = K := Int.toNat_of_nonneg (le_of_lt hK)
  by_cases hlt : (q.length : ℤ) < K
  · have hq : queueStep K q s obj = queueAdd ⟨s, obj⟩ q := by
      rw [queueStep, if_pos hlt]
    have hmin : min (q.length + 1) K.toNat = q.length + 1 := by omega
    rw [hq, queueAdd_length, hmin]
    refine ⟨queueAdd_sorted _ hs, rfl, fun x hx => ?_⟩
    rcases queueAdd_mem hx with h1 | h1
    · exact Or.inr h1
    · exact Or.inl h1
  · have hlen : q.length = K.toNat := by omega
    obtain ⟨peeked, q', rfl⟩ : ∃ a l, q = a :: l := by
      cases q with
      | nil =>
          exfalso
          simp only [List.length_nil] at hlen
          omega
      | cons a l => exact ⟨a, l, rfl⟩
    have hq : queueStep K (peeked :: q') s obj =
        if peeked.similarity < s then queueAdd ⟨s, obj⟩ q'
        else peeked :: q' := by
      rw [queueStep, if_neg hlt]
      rfl
    have htail : ascending q' := hs.tail
    by_cases hgt : peeked.similarity < s
    · rw [hq, if_pos hgt]
      refine ⟨queueAdd_sorted _ htail, ?_, fun x hx => ?_⟩
      · rw [queueAdd_length]
        simp only [List.length_cons] at hlen ⊢
        omega
      · rcases queueAdd_mem hx with h1 | h1
        · exact Or.inr h1
        · exact Or.inl (List.mem_cons_of_mem _ h1)
    · rw [hq, if_neg hgt]
      refine ⟨hs, ?_, fun x hx => Or.inl hx⟩
      omega

theorem searchLocal_fold_inv (sim : List ℚ → JSValue → ℚ) (qv : List ℚ)
    (filter : Obj) {K : ℤ} (hK : 0 < K) :
    ∀ (objs : List Obj) (queue : List SearchResult), ascending queue →
      queue.length ≤ K.toNat →
      ascending (objs.foldl
        (fun queue obj =>
          if matchesFilter obj filter then
            queueStep K queue (sim qv (jsGet obj "embedding")) obj
          else queue) queue) ∧
      (objs.foldl
        (fun queue obj =>
          if matchesFilter obj filter then
            queueStep K queue (sim qv (jsGet obj "embedding")) obj
          else queue) queue).length =
        min (queue.length + objs.countP (fun o => matchesFilter o filter))
          K.toNat ∧
      ∀ x ∈ objs.foldl
          (fun queue obj =>
            if matchesFilter obj filter then
              queueStep K queue (sim qv (jsGet obj "embedding")) obj
            else queue) queue,
        x ∈ queue ∨ ∃ o, o ∈ objs ∧ matchesFilter o filter = true ∧
          x = ⟨sim qv (jsGet o "embedding"), o⟩ := by
  intro objs
  induction objs with
  | nil =>
      intro queue hs hl
      refine ⟨hs, ?_, fun x hx => Or.inl hx⟩
      simp only [List.foldl_nil, List.countP_nil]
      omega
  | cons o rest ih =>
      intro queue hs hl
      simp only [List.foldl_cons]
      by_cases hm : matchesFilter o filter = true
      · rw [if_pos hm]
        have hstep := queueStep_inv hK hs hl (sim qv (jsGet o "embedding")) o
        have hl1 : (queueStep K queue (sim qv (jsGet o "embedding")) o).length
            ≤ K.toNat := by
          rw [hstep.2.1]; omega
        have hrec := ih _ hstep.1 hl1
        refine ⟨hrec.1, ?_, ?_⟩
        · rw [hrec.2.1, hstep.2.1,
            List.countP_cons_of_pos (fun o => matchesFilter o filter) rest hm]
          omega
        · intro x hx
          rcases hrec.2.2 x hx with h1 | ⟨o', ho', hmo', hxo'⟩
          · rcases hstep.2.2 x h1 with h2 | h2
            · exact Or.inl h2
            · exact Or.inr ⟨o, List.mem_cons_self o rest, hm, h2⟩
          · exact Or.inr ⟨o', List.mem_cons_of_mem o ho', hmo', hxo'⟩
      · rw [if_neg hm]
        have hrec := ih queue hs hl
        refine ⟨hrec.1, ?_, ?_⟩
        · rw [hrec.2.1,
            List.countP_cons_of_neg (fun o => matchesFilter o filter) rest hm]
        · intro x hx
          rcases hrec.2.2 x hx with h1 | ⟨o', ho', hmo', hxo'⟩
          · exact Or.inl h1
          · exact Or.inr ⟨o', List.mem_cons_of_mem o ho', hmo', hxo'⟩

/-- The observable behavior of the local search path: result count is
`min(topK, matching count)`, results are descending by score (ties free),
and every result is a scored filter-matching record. -/
theorem searchLocal_spec (sim : List ℚ → JSValue → ℚ) (objects : List Obj)
    (qv : List ℚ) {K : ℤ} (f : Obj) (hK : 0 < K) :
    (searchLocal sim objects qv K f).length =
        min K.toNat (objects.countP (fun o => matchesFilter o f)) ∧
      List.Pairwise (fun a b : SearchResult => b.similarity ≤ a.similarity)
        (searchLocal sim objects qv K f) ∧
      ∀ x ∈ searchLocal sim objects qv K f,
        ∃ o, o ∈ objects ∧ matchesFilter o f = true ∧
          x = ⟨sim qv (jsGet o "embedding"), o⟩ := by
  have h := searchLocal_fold_inv sim qv f hK objects []
    (by simp [ascending]) (by simp)
  refine ⟨?_, ?_, ?_⟩
  · rw [searchLocal, List.length_reverse, h.2.1]
    simp [Nat.min_comm]
  · rw [searchLocal, List.pairwise_reverse]
    exact h.1
  · intro x hx
    rw [searchLocal, List.mem_reverse] at hx
    rcases h.2.2 x hx with h1 | h1
    · cases h1
    · exact h1

/-! ### Claims C1 and C9: the local search path -/

theorem search_useStorage_none (sim : List ℚ → JSValue → ℚ)
    (fetchAll : String → String → Except StorageErr (List Obj))
    (avail : Bool) (st : EmbeddingIndex) (qv : List ℚ) (t : Option ℤ)
    (f : Obj) :
    search sim fetchAll avail st qv ⟨t, some f, some UseStorage.none, none⟩ =
      Except.ok (st, searchLocal sim st.objects qv (resolveTopK t) f, 0) := by
  rw [search]
  rfl

/-- C1: for every record store, query vector, filter, and positive `K`,
`search` with the local (non-storage) source returns exactly
`min(K, number of filter-matching records)` results, in descending order
of similarity score (ties unordered — the order is nonstrict), each of
which is a scored filter-matching record.  Proved for every scorer `sim`,
every storage collaborator and either storage availability, since the
local path consults none of them. -/
theorem search_local_topK_spec (sim : List ℚ → JSValue → ℚ)
    (fetchAll : String → String → Except StorageErr (List Obj))
    (avail : Bool) (st : EmbeddingIndex) (qv : List ℚ) (f : Obj) (K : ℤ)
    (hK : 0 < K) :
    search sim fetchAll avail st qv ⟨some K, some f, some UseStorage.none, none⟩ =
        Except.ok (st, searchLocal sim st.objects qv K f, 0) ∧
      (searchLocal sim st.objects qv K f).length =
        min K.toNat (st.objects.countP (fun o => matchesFilter o f)) ∧
      List.Pairwise (fun a b : SearchResult => b.similarity ≤ a.similarity)
        (searchLocal sim st.objects qv K f) ∧
      ∀ x ∈ searchLocal sim st.objects qv K f,
        ∃ o, o ∈ st.objects ∧ matchesFilter o f = true ∧
          x = ⟨sim qv (jsGet o "embedding"), o⟩ := by
  have hres : resolveTopK (some K) = K := by
    rw [resolveTopK, if_neg (by omega)]
  have h := searchLocal_spec sim st.objects qv f hK
  refine ⟨?_, h.1, h.2.1, h.2.2⟩
  rw [search_useStorage_none, hres]

/-- Witness for C1 at concrete inputs: four matching records, `K = 2`. -/
theorem search_local_topK_spec_witness :
    search simConst fetchFail true stABCD [] ⟨some 2, some [], some UseStorage.none, none⟩ =
        Except.ok (stABCD, searchLocal simConst stABCD.objects [] 2 [], 0) ∧
      (searchLocal simConst stABCD.objects [] 2 []).length = 2 := by
  have h := search_local_topK_spec simConst fetchFail true stABCD [] [] 2
    (by norm_num)
  refine ⟨h.1, ?_⟩
  rw [h.2.1]
  rfl

/-- C9: `search` called with `topK: 0` behaves as `topK = 3` (the
`options.topK || DEFAULT_TOP_K` resolution treats the falsy `0` as
unspecified), so over a store with at least 3 filter-matching records it
returns 3 results, not an empty list. -/
theorem search_topK_zero_defaults (sim : List ℚ → JSValue → ℚ)
    (fetchAll : String → String → Except StorageErr (List Obj))
    (avail : Bool) (st : EmbeddingIndex) (qv : List ℚ) (f : Obj)
    (h3 : 3 ≤ st.objects.countP (fun o => matchesFilter o f)) :
    search sim fetchAll avail st qv ⟨some 0, some f, some UseStorage.none, none⟩ =
        Except.ok (st, searchLocal sim st.objects qv 3 f, 0) ∧
      (searchLocal sim st.objects qv 3 f).length = 3 := by
  have h0 : resolveTopK (some 0) = 3 := rfl
  constructor
  · rw [search_useStorage_none, h0]
  · have h := (searchLocal_spec sim st.objects qv f
      (show (0:ℤ) < 3 by norm_num)).1
    rw [h]
    omega

/-- Witness for C9: the four-record store, empty filter (4 ≥ 3 matches). -/
theorem search_topK_zero_defaults_witness :
    search simConst fetchFail true stABCD [] ⟨some 0, some [], some UseStorage.none, none⟩ =
        Except.ok (stABCD, searchLocal simConst stABCD.objects [] 3 [], 0) ∧
      (searchLocal simConst stABCD.objects [] 3 []).length = 3 :=
  search_topK_zero_defaults simConst fetchFail true stABCD [] []
    (by
      show 3 ≤ List.countP _ _
      rw [show List.countP (fun o => matchesFilter o []) stABCD.objects = 4
        from rfl]
      omega)

/-! ### Cache layer lemmas and claims C3, C4, C7 -/

theorem clearIndexedDBCache_eq {st : EmbeddingIndex} (hwf : WFCache st) :
    clearIndexedDBCache st =
      { st with
          indexedDBDataCache := none
          preloadedDBName := none
          preloadedObjectStoreName := none } := by
  rw [clearIndexedDBCache]
  rcases h : st.indexedDBDataCache with _ | v
  · obtain ⟨h1, h2⟩ := hwf h
    simp only [h, Option.isSome_none, Bool.false_eq_true, if_false]
    cases st
    simp_all
  · simp [h]

theorem clearIndexedDBCache_cache (st : EmbeddingIndex) :
    (clearIndexedDBCache st).indexedDBDataCache = none := by
  rw [clearIndexedDBCache]
  rcases h : st.indexedDBDataCache with _ | v <;> simp [h]

theorem isCacheValid_clear (st : EmbeddingIndex) (db os : String) :
    isCacheValid (clearIndexedDBCache st) db os = false := by
  rw [isCacheValid, clearIndexedDBCache_cache]
  rfl

theorem preload_fail_cache
    {fetchAll : String → String → Except StorageErr (List Obj)}
    (st : EmbeddingIndex) {db os : String} {e : StorageErr}
    (hfail : fetchAll db os = Except.error e) :
    (preloadIndexedDB fetchAll st db os).1.indexedDBDataCache = none := by
  rw [preloadIndexedDB, hfail]
  exact clearIndexedDBCache_cache _

theorem preload_ok_state
    {fetchAll : String → String → Except StorageErr (List Obj)}
    (st : EmbeddingIndex) {db os : String} {objs : List Obj}
    (hok : fetchAll db os = Except.ok objs) :
    (preloadIndexedDB fetchAll st db os).1 =
      { clearIndexedDBCache st with
          indexedDBDataCache := some objs
          preloadedDBName := some db
          preloadedObjectStoreName := some os } := by
  rw [preloadIndexedDB, hok]

/-- C3 (amended): a failed explicit preload is caught inside the call —
the rejection channel stays empty — and leaves the cache cleared (no
snapshot, no identity tag) with the records and schema untouched. -/
theorem preload_failure_swallowed_and_cleared
    (fetchAll : String → String → Except StorageErr (List Obj))
    (st : EmbeddingIndex) (db os : String) (e : StorageErr)
    (hwf : WFCache st) (hfail : fetchAll db os = Except.error e) :
    preloadIndexedDB fetchAll st db os =
      ({ st with
          indexedDBDataCache := none
          preloadedDBName := none
          preloadedObjectStoreName := none }, none) := by
  rw [preloadIndexedDB, hfail, clearIndexedDBCache_eq hwf,
    clearIndexedDBCache_eq (by intro _; exact ⟨rfl, rfl⟩)]

/-- Witness for C3's amended theorem at a state holding a snapshot. -/
theorem preload_failure_swallowed_and_cleared_witness :
    WFCache stCached ∧
      preloadIndexedDB fetchFail stCached "a" "b" =
        (⟨[], [], none, none, none⟩, none) := by
  have hwf : WFCache stCached := by
    intro h
    simp [stCached] at h
  exact ⟨hwf,
    (preload_failure_swallowed_and_cleared fetchFail stCached "a" "b"
      StorageErr.openFailure hwf rfl).trans rfl⟩

/-- C3 (counterexample to the claim as stated): with a collaborator that
fails, the explicit preload call completes without any propagated error
(the claim demands that the failure surface to the caller); the cache is
cleared. -/
theorem preload_failure_does_not_propagate_cex :
    (preloadIndexedDB fetchFail stCached "a" "b").2 = none ∧
      (preloadIndexedDB fetchFail stCached "a" "b").1 =
        ⟨[], [], none, none, none⟩ := by
  constructor <;> rfl

theorem loadAndSearch_fetchCalls (sim : List ℚ → JSValue → ℚ)
    (fetchAll : String → String → Except StorageErr (List Obj))
    (st : EmbeddingIndex) (db os : String) (qv : List ℚ) (K : ℤ) (f : Obj) :
    (loadAndSearchFromIndexedDB sim fetchAll st db os qv K f).fetchCalls =
      if isCacheValid st db os = true then 0 else 1 := by
  rw [loadAndSearchFromIndexedDB]
  rcases h : isCacheValid st db os with _ | _
  · simp only [h, Bool.not_false, if_pos rfl, Bool.false_eq_true, if_false]
    rcases hc : (preloadIndexedDB fetchAll st db os).1.indexedDBDataCache
      with _ | objs <;> simp [hc]
  · simp [h]

theorem loadAndSearch_state (sim : List ℚ → JSValue → ℚ)
    (fetchAll : String → String → Except StorageErr (List Obj))
    (st : EmbeddingIndex) (db os : String) (qv : List ℚ) (K : ℤ) (f : Obj) :
    (loadAndSearchFromIndexedDB sim fetchAll st db os qv K f).state =
      if isCacheValid st db os = true then st
      else (preloadIndexedDB fetchAll st db os).1 := by
  rw [loadAndSearchFromIndexedDB]
  rcases h : isCacheValid st db os with _ | _
  · simp only [h, Bool.not_false, if_pos rfl, Bool.false_eq_true, if_false]
    rcases hc : (preloadIndexedDB fetchAll st db os).1.indexedDBDataCache
      with _ | objs <;> simp [hc]
  · simp [h]

theorem loadAndSearch_miss_fail (sim : List ℚ → JSValue → ℚ)
    {fetchAll : String → String → Except StorageErr (List Obj)}
    (st : EmbeddingIndex) {db os : String} (qv : List ℚ) (K : ℤ) (f : Obj)
    {e : StorageErr}
    (hmiss : isCacheValid st db os = false)
    (hfail : fetchAll db os = Except.error e) :
    loadAndSearchFromIndexedDB sim fetchAll st db os qv K f =
      ⟨(preloadIndexedDB fetchAll st db os).1, [], 1⟩ := by
  rw [loadAndSearchFromIndexedDB]
  simp only [hmiss, Bool.not_false, if_pos rfl]
  rw [preload_fail_cache st hfail]
  simp

/-- C4: a storage-backed `search` whose implicit preload-on-miss fails
does not raise the storage failure: `loadAndSearchFromIndexedDB` returns
an empty result list, and the surrounding `search` resolves successfully
with those empty results. -/
theorem search_storage_failure_returns_empty (sim : List ℚ → JSValue → ℚ)
    (fetchAll : String → String → Except StorageErr (List Obj))
    (st : EmbeddingIndex) (db os : String) (qv : List ℚ) (K : ℤ) (f : Obj)
    (e : StorageErr) (hK : K ≠ 0) (hdb : db ≠ "") (hos : os ≠ "")
    (hmiss : isCacheValid st db os = false)
    (hfail : fetchAll db os = Except.error e) :
    (loadAndSearchFromIndexedDB sim fetchAll st db os qv K f).results = [] ∧
      search sim fetchAll true st qv
          ⟨some K, some f, some UseStorage.indexedDB, some (db, os)⟩ =
        Except.ok
          ((loadAndSearchFromIndexedDB sim fetchAll st db os qv K f).state,
            [], 1) := by
  have hmain := loadAndSearch_miss_fail sim st qv K f hmiss hfail
  constructor
  · rw [hmain]
  · rw [search]
    have ht : resolveTopK (some K) = K := by rw [resolveTopK, if_neg hK]
    have hdb' : resolveName (some (db, os).1) "clientVectorDB" = db := by
      rw [resolveName, if_neg hdb]
    have hos' : resolveName (some (db, os).2) "ClientEmbeddingStore" = os := by
      rw [resolveName, if_neg hos]
    simp only [Option.getD_some, Option.map_some', ht, hdb', hos']
    simp only [if_true, Bool.not_true, Bool.false_eq_true, if_false, hmain]

/-- Witness for C4: empty cache, always-failing collaborator. -/
theorem search_storage_failure_returns_empty_witness :
    (loadAndSearchFromIndexedDB simConst fetchFail emptyIndex "db" "os" [] 3
        []).results = [] ∧
      search simConst fetchFail true emptyIndex []
          ⟨some 3, some [], some UseStorage.indexedDB, some ("db", "os")⟩ =
        Except.ok
          ((loadAndSearchFromIndexedDB simConst fetchFail emptyIndex "db" "os"
              [] 3 []).state, [], 1) :=
  search_storage_failure_returns_empty simConst fetchFail emptyIndex "db" "os"
    [] 3 [] StorageErr.openFailure (by norm_num) (by simp) (by simp)
    (by rfl) rfl

/-- C7: the storage-backed search consults the durable-storage
collaborator exactly when the cache is invalid for the requested identity;
two consecutive storage-backed searches for the same identity (the fetch
succeeding) perform one fetch in total — the second performs none — and an
`invalidateCache` between them forces the second to fetch again. -/
theorem storage_fetch_iff_cache_invalid (sim : List ℚ → JSValue → ℚ)
    (fetchAll : String → String → Except StorageErr (List Obj))
    (st : EmbeddingIndex) (db os : String) (qv : List ℚ) (K : ℤ) (f : Obj)
    (objs : List Obj) (hok : fetchAll db os = Except.ok objs) :
    ((loadAndSearchFromIndexedDB sim fetchAll st db os qv K f).fetchCalls =
        if isCacheValid st db os = true then 0 else 1) ∧
      ((loadAndSearchFromIndexedDB sim fetchAll
            (loadAndSearchFromIndexedDB sim fetchAll st db os qv K f).state
            db os qv K f).fetchCalls = 0) ∧
      ((loadAndSearchFromIndexedDB sim fetchAll
            (clearIndexedDBCache
              (loadAndSearchFromIndexedDB sim fetchAll st db os qv K
                f).state)
            db os qv K f).fetchCalls = 1) := by
  refine ⟨loadAndSearch_fetchCalls sim fetchAll st db os qv K f, ?_, ?_⟩
  · rw [loadAndSearch_fetchCalls, loadAndSearch_state]
    rcases h : isCacheValid st db os with _ | _
    · simp only [Bool.false_eq_true, if_false]
      rw [preload_ok_state st hok, if_pos (by simp [isCacheValid])]
    · simp [h]
  · rw [loadAndSearch_fetchCalls, isCacheValid_clear]
    rfl

/-- Witness for C7: cold start against the `"db"/"os"` collaborator. -/
theorem storage_fetch_iff_cache_invalid_witness :
    ((loadAndSearchFromIndexedDB simConst fetchOk emptyIndex "db" "os" [] 3
        []).fetchCalls = 1) ∧
      ((loadAndSearchFromIndexedDB simConst fetchOk
            (loadAndSearchFromIndexedDB simConst fetchOk emptyIndex "db" "os"
              [] 3 []).state "db" "os" [] 3 []).fetchCalls = 0) ∧
      ((loadAndSearchFromIndexedDB simConst fetchOk
            (clearIndexedDBCache
              (loadAndSearchFromIndexedDB simConst fetchOk emptyIndex "db"
                "os" [] 3 []).state) "db" "os" [] 3 []).fetchCalls = 1) := by
  have h := storage_fetch_iff_cache_invalid simConst fetchOk emptyIndex "db"
    "os" [] 3 [] [recA, recB] (by rfl)
  refine ⟨?_, h.2.1, h.2.2⟩
  rw [h.1]
  rfl

/-! ### Claim C8: remove raises iff no match, get never raises -/

/-- C8: `remove(filter)` throws `Vector not found` exactly when no record
matches the filter (in particular on an empty store, where `find?` is
`none`), while `get(filter)` has no error channel at all — it evaluates to
the first matching record in storage order, or `none` when no record
matches; the empty filter matches every record. -/
theorem remove_notFound_iff_get_total (st : EmbeddingIndex) (f r : Obj) :
    ((remove st f).2 = some ErrKind.vectorNotFound ↔
      st.objects.find? (fun o => matchesFilter o f) = none) ∧
      get st f = st.objects.find? (fun o => matchesFilter o f) ∧
      matchesFilter r [] = true := by
  refine ⟨?_, ?_, rfl⟩
  · rw [remove]
    by_cases hidx : findVectorIndex st f = -1
    · rw [if_pos hidx]
      exact ⟨fun _ => (findIndexAux_eq_neg1_iff _ _).1 hidx, fun _ => rfl⟩
    · rw [if_neg hidx]
      constructor
      · intro hc
        cases hc
      · intro hc
        exact absurd ((findIndexAux_eq_neg1_iff _ _).2 hc) hidx
  · rw [get]
    exact jsIndexList_findIndexAux _ _

/-- Witness for C8 at concrete inputs: empty store (remove throws, get
gives `none`) via the `find? = none` equation. -/
theorem remove_notFound_iff_get_total_witness :
    (remove emptyIndex [("id", JSValue.num 9)]).2 =
        some ErrKind.vectorNotFound ∧
      get stABCD [("id", JSValue.num 2)] =
        stABCD.objects.find?
          (fun o => matchesFilter o [("id", JSValue.num 2)]) := by
  constructor
  · exact (remove_notFound_iff_get_total emptyIndex [("id", JSValue.num 9)]
      []).1.2 rfl
  · exact (remove_notFound_iff_get_total stABCD [("id", JSValue.num 2)]
      []).2.1

/-! ### Claim C5: add validation -/

/-- C5 (amended): `add(record)` raises a `ValidationError` exactly when
the `embedding` fails the `Array.isArray`/`some(isNaN)` guard (it is
missing, not an array, or an element coerces to `NaN`) or when a schema
has been established — which survives `clear()`, so the store may be
empty — and the record lacks one of its attributes.  Whenever it raises,
the state is unchanged; on success the record is appended at the end, the
cache fields are untouched, and if no schema was established it becomes
the record's attribute names. -/
theorem add_spec (st : EmbeddingIndex) (r : Obj) :
    ((add st r).2.isSome = true ↔
        (embeddingInvalid r = true ∨
          (st.keys ≠ [] ∧ ¬st.keys.all (fun k => hasKey r k) = true))) ∧
      ((add st r).2.isSome = true → (add st r).1 = st) ∧
      ((add st r).2 = none →
        (add st r).1.objects = st.objects ++ [r] ∧
          (add st r).1.keys =
            (if st.keys = [] then keysOf r else st.keys) ∧
          (add st r).1.indexedDBDataCache = st.indexedDBDataCache ∧
          (add st r).1.preloadedDBName = st.preloadedDBName ∧
          (add st r).1.preloadedObjectStoreName =
            st.preloadedObjectStoreName) := by
  rw [add, validateAndAdd]
  by_cases h1 : embeddingInvalid r = true
  · rw [if_pos h1]
    refine ⟨⟨fun _ => Or.inl h1, fun _ => rfl⟩, fun _ => rfl, fun hc => ?_⟩
    cases hc
  · rw [if_neg h1]
    have h1' : embeddingInvalid r = false := by
      rcases h : embeddingInvalid r with _ | _
      · rfl
      · exact absurd h h1
    by_cases h2 : st.keys = []
    · rw [if_pos h2]
      refine ⟨⟨fun hc => ?_, fun hc => ?_⟩, fun hc => ?_, fun _ => ?_⟩
      · cases hc
      · rcases hc with hc | hc
        · exact absurd hc h1
        · exact absurd h2 hc.1
      · cases hc
      · exact ⟨rfl, by rw [if_pos h2], rfl, rfl, rfl⟩
    · rw [if_neg h2]
      by_cases h3 : st.keys.all (fun k => hasKey r k) = true
      · rw [if_pos h3]
        refine ⟨⟨fun hc => ?_, fun hc => ?_⟩, fun hc => ?_, fun _ => ?_⟩
        · cases hc
        · rcases hc with hc | hc
          · exact absurd hc h1
          · exact absurd h3 hc.2
        · cases hc
        · exact ⟨rfl, by rw [if_neg h2], rfl, rfl, rfl⟩
      · rw [if_neg h3]
        exact ⟨⟨fun _ => Or.inr ⟨h2, h3⟩, fun _ => rfl⟩, fun _ => rfl,
          fun hc => by cases hc⟩

/-- Witness for C5's amended theorem: a successful add on the empty
index appends and establishes the schema. -/
theorem add_spec_witness :
    (add emptyIndex recA).2 = none ∧
      (add emptyIndex recA).1.objects = emptyIndex.objects ++ [recA] ∧
      (add emptyIndex recA).1.keys = keysOf recA := by
  have hnone : (add emptyIndex recA).2 = none := rfl
  obtain ⟨ho, hk, _⟩ := (add_spec emptyIndex recA).2.2 hnone
  refine ⟨hnone, ho, ?_⟩
  rw [hk, if_pos (show emptyIndex.keys = [] from rfl)]

/-- C5 (counterexample to the claim as stated): `add` a record after
`add; clear` — the store is empty, the record's embedding is valid, yet
the call raises the schema `ValidationError`, because the schema check is
keyed on `this.keys` (which `clear()` does not reset), not on the store
being non-empty as the claim states. -/
theorem add_raises_on_empty_store_cex :
    (runOps emptyIndex [Op.add recA, Op.clear]).2 = none ∧
      (runOps emptyIndex [Op.add recA, Op.clear]).1.objects = [] ∧
      embeddingInvalid [("embedding", JSValue.arr [JSValue.num 2])] = false ∧
      (add (runOps emptyIndex [Op.add recA, Op.clear]).1
          [("embedding", JSValue.arr [JSValue.num 2])]).2 =
        some ErrKind.schemaMismatch :=
  ⟨rfl, rfl, rfl, rfl⟩

/-! ### Claim C2: update with an embedding patch (code bug) -/

/-- C2 (the code contradicts the claim — and its own stated intent):
updating the single record of a store with a patch containing an
`embedding` passes the patch through `validateAndAdd`, which *pushes the
patch as an extra record* and validates the full schema on it, before the
`Object.assign` merge into the matched record.  Concretely: a one-record
store ends with two records after `update`, where the claim (and the
method's own "update an existing vector" documentation) requires the
record count to be unchanged. -/
theorem update_embedding_patch_appends_bug :
    (add emptyIndex recA).2 = none ∧
      (add emptyIndex recA).1.objects.length = 1 ∧
      (update (add emptyIndex recA).1 [("id", JSValue.num 1)] patchA).2 =
        none ∧
      (update (add emptyIndex recA).1 [("id", JSValue.num 1)]
          patchA).1.objects = [patchA, patchA] :=
  ⟨rfl, rfl, rfl, rfl⟩

/-! ### `validateAndAdd` shape lemmas -/

theorem validateAndAdd_success (st : EmbeddingIndex) (o : Obj)
    (hsucc : (validateAndAdd st o).2 = none) :
    embeddingInvalid o = false ∧
      (validateAndAdd st o).1.objects = st.objects ++ [o] ∧
      (validateAndAdd st o).1.keys =
        (if st.keys = [] then keysOf o else st.keys) ∧
      (st.keys = [] ∨ st.keys.all (fun k => hasKey o k) = true) ∧
      (validateAndAdd st o).1.indexedDBDataCache = st.indexedDBDataCache ∧
      (validateAndAdd st o).1.preloadedDBName = st.preloadedDBName ∧
      (validateAndAdd st o).1.preloadedObjectStoreName =
        st.preloadedObjectStoreName := by
  rw [validateAndAdd] at hsucc ⊢
  by_cases h1 : embeddingInvalid o = true
  · rw [if_pos h1] at hsucc
    simp at hsucc
  · have h1' : embeddingInvalid o = false := by
      rcases h : embeddingInvalid o with _ | _
      · rfl
      · exact absurd h h1
    rw [if_neg h1] at hsucc ⊢
    by_cases h2 : st.keys = []
    · rw [if_pos h2] at hsucc ⊢
      exact ⟨h1', rfl, by rw [if_pos h2], Or.inl h2, rfl, rfl, rfl⟩
    · rw [if_neg h2] at hsucc ⊢
      by_cases h3 : st.keys.all (fun k => hasKey o k) = true
      · rw [if_pos h3] at hsucc ⊢
        exact ⟨h1', rfl, by rw [if_neg h2], Or.inr h3, rfl, rfl, rfl⟩
      · rw [if_neg h3] at hsucc
        simp at hsucc

theorem validateAndAdd_error (st : EmbeddingIndex) (o : Obj)
    (herr : (validateAndAdd st o).2.isSome = true) :
    (validateAndAdd st o).1 = st := by
  rw [validateAndAdd] at herr ⊢
  split_ifs at herr ⊢ <;> first | rfl | simp at herr

theorem validateAndAdd_cacheFields (st : EmbeddingIndex) (o : Obj) :
    (validateAndAdd st o).1.indexedDBDataCache = st.indexedDBDataCache ∧
      (validateAndAdd st o).1.preloadedDBName = st.preloadedDBName ∧
      (validateAndAdd st o).1.preloadedObjectStoreName =
        st.preloadedObjectStoreName := by
  rw [validateAndAdd]
  split_ifs <;> exact ⟨rfl, rfl, rfl⟩

theorem validateAndAdd_keys_stable (st : EmbeddingIndex) (o : Obj)
    (h : st.keys ≠ []) : (validateAndAdd st o).1.keys = st.keys := by
  rw [validateAndAdd]
  by_cases h1 : embeddingInvalid o = true
  · rw [if_pos h1]
  · rw [if_neg h1, if_neg h]
    by_cases h3 : st.keys.all (fun k => hasKey o k) = true
    · rw [if_pos h3]
    · rw [if_neg h3]

theorem runAdds_cacheFields (l : List Obj) (st : EmbeddingIndex) :
    (runAdds l st).1.indexedDBDataCache = st.indexedDBDataCache ∧
      (runAdds l st).1.preloadedDBName = st.preloadedDBName ∧
      (runAdds l st).1.preloadedObjectStoreName =
        st.preloadedObjectStoreName := by
  induction l generalizing st with
  | nil => exact ⟨rfl, rfl, rfl⟩
  | cons o rest ih =>
      rw [runAdds]
      rcases hva : validateAndAdd st o with ⟨st1, e⟩
      have hc := validateAndAdd_cacheFields st o
      rw [hva] at hc
      cases e with
      | none =>
          obtain ⟨ih1, ih2, ih3⟩ := ih st1
          exact ⟨ih1.trans hc.1, ih2.trans hc.2.1, ih3.trans hc.2.2⟩
      | some err => exact hc

theorem runAdds_keys_stable (l : List Obj) (st : EmbeddingIndex)
    (h : st.keys ≠ []) : (runAdds l st).1.keys = st.keys := by
  induction l generalizing st with
  | nil => rfl
  | cons o rest ih =>
      rw [runAdds]
      rcases hva : validateAndAdd st o with ⟨st1, e⟩
      have hk : st1.keys = st.keys := by
        have := validateAndAdd_keys_stable st o h
        rw [hva] at this
        exact this
      cases e with
      | none => exact (ih st1 (by rw [hk]; exact h)).trans hk
      | some err => exact hk

theorem runAdds_keys_head (o : Obj) (rest : List Obj) (st : EmbeddingIndex)
    (hkeys : st.keys = []) (hsucc : (runAdds (o :: rest) st).2 = none) :
    (runAdds (o :: rest) st).1.keys = keysOf o := by
  simp only [runAdds] at hsucc ⊢
  rcases hva : validateAndAdd st o with ⟨st1, e⟩
  simp only [hva] at hsucc ⊢
  cases e with
  | some err => cases hsucc
  | none =>
      have hgood := validateAndAdd_success st o (by rw [hva])
      rw [hva] at hgood
      have hk1 : st1.keys = keysOf o := by
        rw [hgood.2.2.1, if_pos hkeys]
      have hne : keysOf o ≠ [] := keysOf_ne_nil_of_embedding hgood.1
      rw [runAdds_keys_stable rest st1 (by rw [hk1]; exact hne), hk1]

/-! ### Claim C10: constructor equals an add-fold -/

theorem setKeys_self {st : EmbeddingIndex} {l : List String}
    (h : st.keys = l) : { st with keys := l } = st := by
  cases st
  cases h
  rfl

theorem resetState_eq_empty {st : EmbeddingIndex}
    (h1 : st.indexedDBDataCache = none) (h2 : st.preloadedDBName = none)
    (h3 : st.preloadedObjectStoreName = none) :
    { st with objects := ([] : List Obj), keys := ([] : List String) } =
      emptyIndex := by
  cases st
  simp_all [emptyIndex]

theorem initBlock_nonempty (o : Obj) (rest : List Obj) (st : EmbeddingIndex)
    (hreset :
      { st with
          objects := ([] : List Obj)
          keys := ([] : List String) } = emptyIndex) :
    constructorInitBlock (o :: rest) st =
      (match runAdds (o :: rest) emptyIndex with
       | (st1, some e) => (st1, some e)
       | (st1, none) => ({ st1 with keys := keysOf o }, none)) := by
  rw [constructorInitBlock]
  simp only [hreset, List.length_cons, List.headD_cons, gt_iff_lt,
    Nat.zero_lt_succ, if_pos]

/-- The constructor run from scratch equals the fold of `validateAndAdd`
over the initial objects starting at the empty index. -/
theorem constructorEI_eq_runAdds (objs : List Obj) :
    constructorEI objs = runAdds objs emptyIndex := by
  cases objs with
  | nil => rfl
  | cons o rest =>
      rw [constructorEI, initBlock_nonempty o rest emptyIndex rfl]
      rcases h : runAdds (o :: rest) emptyIndex with ⟨s, e⟩
      cases e with
      | some err => rfl
      | none =>
          have hkeys : s.keys = keysOf o := by
            have := runAdds_keys_head o rest emptyIndex rfl (by rw [h])
            rw [h] at this
            exact this
          have hcache := runAdds_cacheFields (o :: rest) emptyIndex
          rw [h] at hcache
          simp only []
          rw [setKeys_self hkeys]
          rw [initBlock_nonempty o rest s
            (resetState_eq_empty hcache.1 hcache.2.1 hcache.2.2), h]
          simp only []
          obtain ⟨hc1, hc2, hc3⟩ := hcache
          cases s
          simp_all [emptyIndex]

/-- C10: constructing an `EmbeddingIndex` from an initial record sequence
yields exactly the same state — same records in the same order, same
schema, empty storage cache — as constructing empty and calling `add` on
each record in order (and the same thrown error when a record is
invalid); the constructor's duplicated init block has no net effect
because it resets `objects` and `keys` before re-adding. -/
theorem constructor_equiv_adds (objs : List Obj) :
    constructorEI objs = runAdds objs emptyIndex :=
  constructorEI_eq_runAdds objs

/-! ### Claim C6: the store invariant -/

theorem embeddingInvalid_objectAssign_key (t p : Obj)
    (h : hasKey p "embedding" = true) :
    embeddingInvalid (objectAssign t p) = embeddingInvalid p := by
  rw [embeddingInvalid, embeddingInvalid, jsGet_objectAssign, if_pos h]

theorem embeddingInvalid_objectAssign_nokey (t p : Obj)
    (h : hasKey p "embedding" = false) :
    embeddingInvalid (objectAssign t p) = embeddingInvalid t := by
  rw [embeddingInvalid, embeddingInvalid, jsGet_objectAssign,
    if_neg (by simp [h])]

theorem Inv_empty : Inv emptyIndex :=
  ⟨fun _ => rfl, by intro r hr; cases hr⟩

theorem Inv_validateAndAdd {st : EmbeddingIndex} (h : Inv st) (o : Obj) :
    Inv (validateAndAdd st o).1 := by
  rcases he : (validateAndAdd st o).2 with _ | e
  · obtain ⟨h1, ho, hk, hor, -, -, -⟩ := validateAndAdd_success st o he
    by_cases h2 : st.keys = []
    · rw [if_pos h2] at hk
      constructor
      · intro hknil
        rw [hk] at hknil
        exact absurd hknil (keysOf_ne_nil_of_embedding h1)
      · intro r hr
        rw [ho, h.1 h2] at hr
        simp only [List.nil_append, List.mem_singleton] at hr
        subst hr
        rw [hk]
        exact ⟨all_keysOf_hasKey r, h1⟩
    · rw [if_neg h2] at hk
      have h3 : st.keys.all (fun k => hasKey o k) = true := by
        rcases hor with hor | hor
        · exact absurd hor h2
        · exact hor
      constructor
      · intro hknil
        rw [hk] at hknil
        exact absurd hknil h2
      · intro r hr
        rw [ho] at hr
        rcases List.mem_append.1 hr with hr | hr
        · rw [hk]
          exact h.2 r hr
        · simp only [List.mem_singleton] at hr
          subst hr
          rw [hk]
          exact ⟨h3, h1⟩
  · have hst : (validateAndAdd st o).1 = st :=
      validateAndAdd_error st o (by rw [he]; rfl)
    rw [hst]
    exact h

theorem Inv_mergeAt {st : EmbeddingIndex} (h : Inv st) (hkeys : st.keys ≠ [])
    (i : ℕ) (p : Obj) (hi : i < st.objects.length)
    (hgood : hasKey p "embedding" = false ∨ embeddingInvalid p = false) :
    Inv { st with
        objects :=
          st.objects.set i (objectAssign (st.objects.getD i []) p) } := by
  have htget : st.objects.getD i [] ∈ st.objects := by
    rw [List.getD_eq_getElem?_getD, List.getElem?_eq_getElem hi]
    exact List.getElem_mem hi
  obtain ⟨ht1, ht2⟩ := h.2 _ htget
  constructor
  · intro hknil
    exact absurd hknil hkeys
  · intro r hr
    rcases List.mem_or_eq_of_mem_set hr with hr | hr
    · exact h.2 r hr
    · subst hr
      constructor
      · rw [List.all_eq_true]
        intro k hk
        rw [hasKey_objectAssign]
        rw [List.all_eq_true] at ht1
        rw [ht1 k hk]
        rfl
      · rcases hgood with hg | hg
        · rw [embeddingInvalid_objectAssign_nokey _ _ hg]
          exact ht2
        · rcases hkp : hasKey p "embedding" with _ | _
          · rw [embeddingInvalid_objectAssign_nokey _ _ hkp]
            exact ht2
          · rw [embeddingInvalid_objectAssign_key _ _ hkp]
            exact hg

theorem findVectorIndex_lt {st : EmbeddingIndex} {f : Obj}
    (hidx : findVectorIndex st f ≠ -1) :
    0 ≤ findVectorIndex st f ∧
      (findVectorIndex st f).toNat < st.objects.length := by
  obtain ⟨h0, hget⟩ := find?_getElem?_of_findIndexAux hidx
  refine ⟨h0, ?_⟩
  rcases hf : st.objects.find? (fun o => matchesFilter o f) with _ | r
  · exact absurd ((findIndexAux_eq_neg1_iff _ _).2 hf) hidx
  · rw [hf] at hget
    obtain ⟨hlt, -⟩ := List.getElem?_eq_some.1 hget
    exact hlt

theorem Inv_update {st : EmbeddingIndex} (h : Inv st) (f p : Obj) :
    Inv (update st f p).1 := by
  rw [update]
  by_cases hidx : findVectorIndex st f = -1
  · rw [if_pos hidx]
    exact h
  · rw [if_neg hidx]
    have hlt := (findVectorIndex_lt hidx).2
    have hkeys : st.keys ≠ [] := by
      intro hknil
      have hobj : st.objects = [] := h.1 hknil
      rw [hobj] at hlt
      simp at hlt
    by_cases hkp : hasKey p "embedding" = true
    · rw [if_pos hkp]
      rcases hva : validateAndAdd st p with ⟨st1, e⟩
      cases e with
      | some err =>
          simp only []
          have hi1 := Inv_validateAndAdd h p
          rw [hva] at hi1
          exact hi1
      | none =>
          simp only []
          have hsucc : (validateAndAdd st p).2 = none := by rw [hva]
          obtain ⟨hemb, hobj1, hkeys1, -, -, -, -⟩ :=
            validateAndAdd_success st p hsucc
          rw [hva] at hobj1 hkeys1
          have hinv1 : Inv st1 := by
            have := Inv_validateAndAdd h p
            rw [hva] at this
            exact this
          have hkeys1' : st1.keys = st.keys := by
            rw [hkeys1, if_neg hkeys]
          have hlt1 : (findVectorIndex st f).toNat < st1.objects.length := by
            rw [hobj1, List.length_append]
            omega
          exact Inv_mergeAt hinv1 (by rw [hkeys1']; exact hkeys) _ p hlt1
            (Or.inr hemb)
    · rw [if_neg hkp]
      simp only []
      exact Inv_mergeAt h hkeys _ p hlt
        (Or.inl (by rcases hk : hasKey p "embedding" with _ | _
                    · rfl
                    · exact absurd hk hkp))

theorem Inv_remove {st : EmbeddingIndex} (h : Inv st) (f : Obj) :
    Inv (remove st f).1 := by
  rw [remove]
  by_cases hidx : findVectorIndex st f = -1
  · rw [if_pos hidx]
    exact h
  · rw [if_neg hidx]
    constructor
    · intro hknil
      rw [h.1 hknil]
      rfl
    · intro r hr
      exact h.2 r ((List.eraseIdx_sublist _ _).subset hr)

theorem Inv_removeBatch {st : EmbeddingIndex} (h : Inv st)
    (filters : List Obj) : Inv (removeBatch st filters) := by
  induction filters generalizing st with
  | nil => exact h
  | cons f rest ih =>
      rw [removeBatch, List.foldl_cons]
      refine ih ?_
      by_cases hidx : findVectorIndex st f ≠ -1
      · rw [if_pos hidx]
        constructor
        · intro hknil
          rw [h.1 hknil]
          rfl
        · intro r hr
          exact h.2 r ((List.eraseIdx_sublist _ _).subset hr)
      · rw [if_neg hidx]
        exact h

theorem Inv_clear {st : EmbeddingIndex} (_ : Inv st) : Inv (clear st) :=
  ⟨fun _ => rfl, by intro r hr; cases hr⟩

theorem Inv_execOp {st : EmbeddingIndex} (h : Inv st) (op : Op) :
    Inv (execOp st op).1 := by
  cases op with
  | add r => exact Inv_validateAndAdd h r
  | update f p => exact Inv_update h f p
  | remove f => exact Inv_remove h f
  | removeBatch fs => exact Inv_removeBatch h fs
  | clear => exact Inv_clear h

theorem Inv_runOps {st : EmbeddingIndex} (h : Inv st) (ops : List Op) :
    Inv (runOps st ops).1 := by
  induction ops generalizing st with
  | nil => exact h
  | cons op rest ih =>
      simp only [runOps]
      rcases hop : execOp st op with ⟨st1, e⟩
      have h1 : Inv st1 := by
        have := Inv_execOp h op
        rw [hop] at this
        exact this
      cases e with
      | none => exact ih h1
      | some err => exact h1

theorem Inv_runAdds {st : EmbeddingIndex} (h : Inv st) (l : List Obj) :
    Inv (runAdds l st).1 := by
  induction l generalizing st with
  | nil => exact h
  | cons o rest ih =>
      simp only [runAdds]
      rcases hva : validateAndAdd st o with ⟨st1, e⟩
      have h1 : Inv st1 := by
        have := Inv_validateAndAdd h o
        rw [hva] at this
        exact this
      cases e with
      | none => exact ih h1
      | some err => exact h1

/-- C6 (amended): every sequence of successful store operations —
construction from an initial sequence, then any mix of `add`, `update`,
`remove`, `removeBatch`, `clear` — preserves the invariant the code
actually maintains: every stored record carries at least the established
schema's attribute names (records may carry extra attributes), and its
`embedding` is an array (possibly empty) with no element that the
`isNaN` coercion flags; moreover a store with no established schema is
empty. -/
theorem store_invariant_preserved (init : List Obj) (ops : List Op)
    (hc : (constructorEI init).2 = none)
    (hr : (runOps (constructorEI init).1 ops).2 = none) :
    Inv (runOps (constructorEI init).1 ops).1 := by
  have hstart : Inv (constructorEI init).1 := by
    rw [constructorEI_eq_runAdds]
    exact Inv_runAdds Inv_empty init
  exact Inv_runOps hstart ops

/-- Witness for C6's amended theorem: construct from one record, then add
another, update it, clear. -/
theorem store_invariant_preserved_witness :
    (constructorEI [recA]).2 = none ∧
      (runOps (constructorEI [recA]).1
          [Op.add recB, Op.remove [("id", JSValue.num 1)], Op.clear]).2 =
        none ∧
      Inv (runOps (constructorEI [recA]).1
          [Op.add recB, Op.remove [("id", JSValue.num 1)], Op.clear]).1 :=
  ⟨rfl, rfl,
    store_invariant_preserved [recA]
      [Op.add recB, Op.remove [("id", JSValue.num 1)], Op.clear] rfl rfl⟩

/-- C6 (counterexample to the claim as stated): the claimed invariant —
same attribute-name set and a *non-empty* numeric embedding — is not
preserved: `add({embedding: []})` succeeds (the `Array.isArray` guard
accepts the empty array and `some(isNaN)` on it is vacuously false),
reaching a store whose record's embedding is the empty array. -/
theorem store_invariant_claim_cex :
    ¬ (∀ (ops : List Op) (st1 : EmbeddingIndex),
        runOps emptyIndex ops = (st1, none) →
        ∀ r ∈ st1.objects, specRecordInvariant st1.keys r) := by
  intro hclaim
  have h := hclaim [Op.add [("embedding", JSValue.arr [])]]
    ⟨[[("embedding", JSValue.arr [])]], ["embedding"], none, none, none⟩
    rfl [("embedding", JSValue.arr [])] (List.mem_singleton_self _)
  obtain ⟨-, xs, hxs, hne, -⟩ := h
  have hx : JSValue.arr xs = JSValue.arr [] := hxs.symm.trans rfl
  injection hx with hxx
  exact hne hxx

end ClientVectorSearch
